import Mathlib

/-!
# Verification of the BlockAssassin supervision-and-transport core

This file gives a shallow embedding, in Lean 4, of the core components of the
BlockAssassin client repository and proves the stated properties about them:

* `src/server/websocket.ts` — the `WebSocketClient` connection state machine
  (connect guards, close-code handling, exponential-backoff reconnection);
* `src/worker/manager.ts` — the `WorkerManager` supervisor (worker lifecycle,
  error counting, bounded recovery);
* `src/utils/crypto.ts` — the `ClientMessageEncryptor` hybrid RSA+AES
  envelope sealing/opening.

State held in JavaScript `Map`s is embedded as association lists with the
unique-key invariant that `Map` maintains; external host primitives (the Web
Crypto API, base64 codec, UTF-8 codec, timers, randomness) are parameters of
the embedding, constrained only by their documented contracts.

The file is laid out as: all definitions, then supporting lemmas, then the
claim theorems and their witnesses.
-/

namespace BlockAssassin

/-! ## Association-list embedding of the JavaScript `Map` operations

`Map.get` returns the value or `undefined`; `Map.set` overwrites in place when
the key is present and appends otherwise; `Map.delete` removes the entry.  On
the unique-key states a `Map` can reach, these recursions are exactly that
behavior. -/

def mapGet {α : Type} : List (String × α) → String → Option α
  | [], _ => none
  | p :: t, k => if p.1 = k then some p.2 else mapGet t k

def mapSet {α : Type} : List (String × α) → String → α → List (String × α)
  | [], k, v => [(k, v)]
  | p :: t, k, v => if p.1 = k then (k, v) :: t else p :: mapSet t k v

def mapDelete {α : Type} : List (String × α) → String → List (String × α)
  | [], _ => []
  | p :: t, k => if p.1 = k then mapDelete t k else p :: mapDelete t k

/-! The key list of the `workers : Map<string, Worker>` — only the key set is
relevant to the supervisor's control flow, the `Worker` handles themselves
being opaque host objects. -/

def wsSet (ws : List String) (k : String) : List String :=
  if k ∈ ws then ws else ws ++ [k]

def wsDelete (ws : List String) (k : String) : List String :=
  ws.filter (fun x => x ≠ k)

/-! ## `WebSocketClient` (src/server/websocket.ts)

The connection state machine.  Timers are embedded as state fields: a pending
reconnect timer is `reconnectTimeout = some delay` (the scheduled delay in
milliseconds, as a rational since the jitter is `Math.random() * 1000`), and
the heartbeat interval is the flag `pingInterval`.  `setTimeout` scheduling is
what writes these fields and `clearTimers` is what erases them, exactly as in
the source.  The jitter drawn from `Math.random()` is passed as an explicit
parameter `j` with its documented range `0 ≤ j < 1000`. -/

inductive ConnectionState
  | disconnected
  | connecting
  | connected
  | authenticating
  | authenticated
  | reconnecting
  | error
deriving DecidableEq, Repr

/-- WebSocket close codes, matching the server-side codes. -/
def WebSocketCloseCode.normalClosure : Nat := 1000
def WebSocketCloseCode.serverShutdown : Nat := 1001
def WebSocketCloseCode.internalError : Nat := 1011
def WebSocketCloseCode.maxConnectionsReached : Nat := 1013
def WebSocketCloseCode.authError : Nat := 4000
def WebSocketCloseCode.connectionTimeout : Nat := 4001
def WebSocketCloseCode.duplicateConnection : Nat := 4002

structure WSState where
  state : ConnectionState
  authToken : Option String
  reconnectAttempts : Nat
  /-- `some delay` when a reconnect `setTimeout` is pending. -/
  reconnectTimeout : Option ℚ
  /-- Whether the heartbeat `setInterval` is active. -/
  pingInterval : Bool
  /-- Whether a socket object has been created (`this.socket !== null`). -/
  socketOpen : Bool
deriving DecidableEq, Repr

def maxReconnectAttempts : Nat := 10

/-- `clearTimers`: cancel the heartbeat interval and any pending reconnect
timeout. -/
def clearTimers (st : WSState) : WSState :=
  { st with pingInterval := false, reconnectTimeout := none }

/-- `connect()`: rejected while `CONNECTED`, `CONNECTING` or `AUTHENTICATING`,
or without an auth token; otherwise transitions to `CONNECTING` and opens the
socket.  Returns the new state plus the boolean result. -/
def connect (st : WSState) : WSState × Bool :=
  if st.state = ConnectionState.connected ∨ st.state = ConnectionState.connecting ∨
      st.state = ConnectionState.authenticating then
    (st, false)
  else if st.authToken = none then
    (st, false)
  else
    ({ st with state := ConnectionState.connecting, socketOpen := true }, true)

/-- `reconnect()`: no-op while already `RECONNECTING`; otherwise clear timers,
enter `RECONNECTING`, bump the attempt counter, give up into `DISCONNECTED`
past `maxReconnectAttempts`, else schedule a retry after
`min(1000·2^attempts + jitter, 30000)` ms. -/
def reconnect (st : WSState) (j : ℚ) : WSState :=
  if st.state = ConnectionState.reconnecting then
    st
  else
    let st1 := clearTimers st
    let st2 := { st1 with state := ConnectionState.reconnecting,
                          reconnectAttempts := st1.reconnectAttempts + 1 }
    if st2.reconnectAttempts > maxReconnectAttempts then
      { st2 with state := ConnectionState.disconnected }
    else
      let delay : ℚ := min (1000 * 2 ^ st2.reconnectAttempts + j) 30000
      { st2 with reconnectTimeout := some delay }

/-- `handleClose(event)`: clear timers, settle `DISCONNECTED`, fire close
handlers (an external effect), and reconnect unless the close code is
`1000` (normal closure) or `4000` (auth error). -/
def handleClose (st : WSState) (code : Nat) (j : ℚ) : WSState :=
  let st1 := { clearTimers st with state := ConnectionState.disconnected }
  if code = WebSocketCloseCode.normalClosure ∨ code = WebSocketCloseCode.authError then
    st1
  else
    reconnect st1 j

/-! ## `WorkerManager` (src/worker/manager.ts)

The supervisor's own state is the three maps `workers`, `status` and
`errorCounts`.  Host interactions — `postMessage` to a worker, the
`setTimeout` that schedules a recovery, the forward to the game service —
are recorded as an effect list.  The body of the recovery `setTimeout`
callback is `recoveryFire`, invoked when that timer elapses. -/

inductive WorkerStatus
  | idle
  | running
  | error
  | terminated
deriving DecidableEq, Repr

inductive WorkerMsgType
  | init
  | start
  | stop
  | error
  | log
  | start_failed
  | task
  | result
  | send
deriving DecidableEq, Repr

structure BotConfig where
  /-- JavaScript `!config.name` is truthy-false exactly when the name is
  missing (`undefined`) or the empty string; the empty string stands for
  both falsy cases here. -/
  name : String
  identity : String
  prompt : String
deriving DecidableEq, Repr

inductive MEffect
  | postMsg (name : String) (t : WorkerMsgType)
  | scheduleRecovery (name : String) (delayMs : Nat)
  | sendGame (name : String) (data : String)
deriving DecidableEq, Repr

structure MState where
  workers : List String
  status : List (String × WorkerStatus)
  errorCounts : List (String × Nat)
deriving DecidableEq, Repr

def maxRetries : Nat := 3

def restartTimeout : Nat := 5000

/-- `terminateWorker(name)`: destroy the unit, mark `TERMINATED`, drop the
error counter.  Returns the success boolean. -/
def terminateWorker (st : MState) (name : String) : MState × Bool :=
  if name ∈ st.workers then
    ({ workers := wsDelete st.workers name,
       status := mapSet st.status name WorkerStatus.terminated,
       errorCounts := mapDelete st.errorCounts name }, true)
  else
    (st, false)

/-- `createWorker(name, config)` on the successful allocation path: register
the worker, record status `IDLE`, post the `INIT` message. -/
def createWorker (st : MState) (name : String) : MState × List MEffect :=
  ({ st with workers := wsSet st.workers name,
             status := mapSet st.status name WorkerStatus.idle },
   [MEffect.postMsg name WorkerMsgType.init])

/-- `initWorker(config)`: reject a falsy name with no state change; terminate
any same-named worker; reset the error counter; create the fresh unit. -/
def initWorker (st : MState) (c : BotConfig) : MState × Bool :=
  if c.name = "" then
    (st, false)
  else
    let st1 := if c.name ∈ st.workers then (terminateWorker st c.name).1 else st
    let st2 := { st1 with errorCounts := mapSet st1.errorCounts c.name 0 }
    ((createWorker st2 c.name).1, true)

/-- The `for name of workers.keys()` loop body of `terminateAllWorkers`,
over an explicit key list. -/
def applyTerms (st : MState) (l : List String) : MState :=
  l.foldl (fun s n => (terminateWorker s n).1) st

/-- `terminateAllWorkers()`: terminate each currently tracked name. -/
def terminateAllWorkers (st : MState) : MState :=
  applyTerms st st.workers

/-- The `for config of configs` loop of `initWorkers`. -/
def applyInits (st : MState) (configs : List BotConfig) : MState :=
  configs.foldl (fun s c => (initWorker s c).1) st

/-- `initWorkers(configs)`: terminate everything, then init each config. -/
def initWorkers (st : MState) (configs : List BotConfig) : MState :=
  applyInits (terminateAllWorkers st) configs

/-- `startWorker(name)`: guarded transition, only from `IDLE` or `ERROR` on an
existing worker; posts `START` and records `RUNNING` on success. -/
def startWorker (st : MState) (name : String) : MState × Bool × List MEffect :=
  if name ∈ st.workers ∧
      (mapGet st.status name = some WorkerStatus.idle ∨
       mapGet st.status name = some WorkerStatus.error) then
    ({ st with status := mapSet st.status name WorkerStatus.running },
     true, [MEffect.postMsg name WorkerMsgType.start])
  else
    (st, false, [])

/-- `stopWorker(name)`: guarded transition, only from `RUNNING` or `ERROR` on
an existing worker; posts `STOP` and records `IDLE` on success. -/
def stopWorker (st : MState) (name : String) : MState × Bool × List MEffect :=
  if name ∈ st.workers ∧
      (mapGet st.status name = some WorkerStatus.running ∨
       mapGet st.status name = some WorkerStatus.error) then
    ({ st with status := mapSet st.status name WorkerStatus.idle },
     true, [MEffect.postMsg name WorkerMsgType.stop])
  else
    (st, false, [])

/-- `attemptWorkerRecovery(name)`: nothing for a non-existent worker; schedule
the restart `setTimeout` while the counter is within `maxRetries`; past that,
log and stop attempting recovery. -/
def attemptWorkerRecovery (st : MState) (name : String) : MState × List MEffect :=
  let errorCount := (mapGet st.errorCounts name).getD 0
  if name ∉ st.workers then
    (st, [])
  else if errorCount ≤ maxRetries then
    (st, [MEffect.scheduleRecovery name restartTimeout])
  else
    (st, [])

/-- The body of the recovery `setTimeout` callback inside
`attemptWorkerRecovery`: if the unit is still `ERROR`, post `STOP`, reset to
`IDLE`, and start it again. -/
def recoveryFire (st : MState) (name : String) : MState × List MEffect :=
  if mapGet st.status name = some WorkerStatus.error then
    let st1 := { st with status := mapSet st.status name WorkerStatus.idle }
    let r := startWorker st1 name
    (r.1, MEffect.postMsg name WorkerMsgType.stop :: r.2.2)
  else
    (st, [])

/-- `handleWorkerError(name, error)`: the worker `error` event listener —
mark `ERROR`, bump the counter, attempt recovery. -/
def handleWorkerError (st : MState) (name : String) : MState × List MEffect :=
  let st1 := { st with status := mapSet st.status name WorkerStatus.error }
  let cur := (mapGet st1.errorCounts name).getD 0
  let st2 := { st1 with errorCounts := mapSet st1.errorCounts name (cur + 1) }
  attemptWorkerRecovery st2 name

/-- `handleWorkerMessage(name, message)`: dispatch on the message tag. -/
def handleWorkerMessage (st : MState) (name : String) (t : WorkerMsgType)
    (data : String) : MState × List MEffect :=
  match t with
  | WorkerMsgType.error =>
    if mapGet st.status name = some WorkerStatus.running then
      let st1 := { st with status := mapSet st.status name WorkerStatus.error }
      let cur := (mapGet st1.errorCounts name).getD 0
      let st2 := { st1 with errorCounts := mapSet st1.errorCounts name (cur + 1) }
      attemptWorkerRecovery st2 name
    else
      (st, [])
  | WorkerMsgType.start_failed => ((terminateWorker st name).1, [])
  | WorkerMsgType.result =>
    ({ st with errorCounts := mapSet st.errorCounts name 0 }, [])
  | WorkerMsgType.send => (st, [MEffect.sendGame name data])
  | _ => (st, [])

/-- One "consecutive runtime error followed by its recovery": the error event
fires, then the scheduled recovery timer elapses. -/
def errThenRecover (st : MState) (name : String) : MState :=
  (recoveryFire (handleWorkerError st name).1 name).1

/-- Four consecutive runtime errors on one unit: the first three each
recovered by the scheduled restart, then the fourth error event. -/
def afterFourErrors (st : MState) (name : String) : MState × List MEffect :=
  handleWorkerError
    (errThenRecover (errThenRecover (errThenRecover st name) name) name) name

/-! ## `ClientMessageEncryptor` (src/utils/crypto.ts)

The hybrid sealing/opening logic.  The cryptographic primitives the code
calls — `crypto.subtle` RSA-OAEP and AES-CBC, the `@std/encoding` base64
codec, `TextEncoder`/`TextDecoder` — are host services, bundled here as the
parameter `CryptoPrims` (byte strings as `List Nat`).  The claim theorems
assume of them only their documented contracts (each decode inverts the
corresponding encode, and real RSA/AES-CBC ciphertexts are never empty).
The fallible host calls return `Option`, matching the `throw` sites.

The wire envelope is the JSON object `{k, i, d}`; `JSON.parse` of a frame is
embedded as a `ParsedFrame` whose fields are `none` when absent.
`JSON.parse(JSON.stringify(e))` recovering the same three string fields is the
JSON runtime's contract, embedded as `envelopeToFrame`. -/

structure CryptoPrims where
  rsaEncrypt : List Nat → List Nat
  rsaDecrypt : List Nat → Option (List Nat)
  aesEncrypt : List Nat → List Nat → List Nat → List Nat
  aesDecrypt : List Nat → List Nat → List Nat → Option (List Nat)
  b64encode : List Nat → String
  b64decode : String → Option (List Nat)
  utf8encode : String → List Nat
  /-- `TextDecoder` with default options never throws (it substitutes
  replacement characters), hence total. -/
  utf8decode : List Nat → String

/-- The `{k, i, d}` JSON envelope emitted by `encryptHybrid`. -/
structure Envelope where
  k : String
  i : String
  d : String
deriving DecidableEq, Repr

/-- The result of `JSON.parse` on an incoming frame, projected to the three
fields `decryptHybrid` reads; a missing field is `none`. -/
structure ParsedFrame where
  k : Option String
  i : Option String
  d : Option String
deriving DecidableEq, Repr

/-- JavaScript truthiness of an optional string field: falsy when absent or
empty. -/
def strTruthy : Option String → Bool
  | none => false
  | some s => s ≠ ""

inductive CryptoError
  | invalidFormat
  | base64Error
  | rsaError
  | aesError
deriving DecidableEq, Repr

/-- `encryptHybrid(data)`: AES-encrypt the payload under the fresh key/IV
(passed explicitly, being `crypto.getRandomValues` output), RSA-wrap the AES
key, and emit the base64 `{k, i, d}` envelope. -/
def encryptHybrid (p : CryptoPrims) (key iv data : List Nat) : Envelope :=
  { k := p.b64encode (p.rsaEncrypt key),
    i := p.b64encode iv,
    d := p.b64encode (p.aesEncrypt key iv data) }

/-- `encrypt(message)` on the RSA branch: UTF-8 encode the message, then
hybrid-encrypt. -/
def encryptMessage (p : CryptoPrims) (key iv : List Nat) (message : String) : Envelope :=
  encryptHybrid p key iv (p.utf8encode message)

/-- Serialize-then-parse of an envelope: the JSON round trip yields the frame
with all three fields present. -/
def envelopeToFrame (e : Envelope) : ParsedFrame :=
  { k := some e.k, i := some e.i, d := some e.d }

/-- `decryptHybrid(encryptedMessage)` after `JSON.parse`: require the three
fields truthy, decode `i` and `d` from base64, RSA-unwrap the AES key from
`k`, AES-decrypt the payload, and UTF-8 decode it. -/
def decryptHybrid (p : CryptoPrims) (frame : ParsedFrame) : Except CryptoError String :=
  if strTruthy frame.k ∧ strTruthy frame.i ∧ strTruthy frame.d then
    match p.b64decode (frame.i.getD "") with
    | none => Except.error CryptoError.base64Error
    | some iv =>
      match p.b64decode (frame.d.getD "") with
      | none => Except.error CryptoError.base64Error
      | some encryptedData =>
        match p.b64decode (frame.k.getD "") with
        | none => Except.error CryptoError.base64Error
        | some encryptedKey =>
          match p.rsaDecrypt encryptedKey with
          | none => Except.error CryptoError.rsaError
          | some aesKey =>
            match p.aesDecrypt aesKey iv encryptedData with
            | none => Except.error CryptoError.aesError
            | some data => Except.ok (p.utf8decode data)
  else
    Except.error CryptoError.invalidFormat

/-! ### A concrete instance of the host primitives

Used by the witnesses: an executable `CryptoPrims` whose components satisfy
the round-trip contracts on the nose.  Base64 is replaced by an injective
unary byte-string rendering, RSA/AES by a marker-byte pair, UTF-8 by the
code-point sequence — each a total executable codec whose inverse property is
proved below, which is all the claim theorems ask of the host. -/

def unaryEncode (l : List Nat) : String :=
  String.mk (l.flatMap fun n => List.replicate n 'a' ++ ['b'])

def unaryDecodeAux : List Char → Nat → Option (List Nat)
  | [], 0 => some []
  | [], _ + 1 => none
  | c :: rest, k =>
    if c = 'a' then unaryDecodeAux rest (k + 1)
    else if c = 'b' then (unaryDecodeAux rest 0).map (fun l => k :: l)
    else none

def unaryDecode (s : String) : Option (List Nat) :=
  unaryDecodeAux s.data 0

def witnessPrims : CryptoPrims :=
  { rsaEncrypt := fun ks => 0 :: ks,
    rsaDecrypt := fun l => match l with | [] => none | _ :: t => some t,
    aesEncrypt := fun _ _ d => 0 :: d,
    aesDecrypt := fun _ _ l => match l with | [] => none | _ :: t => some t,
    b64encode := unaryEncode,
    b64decode := unaryDecode,
    utf8encode := fun s => s.data.map Char.toNat,
    utf8decode := fun l => String.mk (l.map Char.ofNat) }

/-! ## Supporting lemmas -/

@[simp] theorem mapGet_mapSet_self {α : Type} (m : List (String × α)) (k : String) (v : α) :
    mapGet (mapSet m k v) k = some v := by
  induction m with
  | nil => simp [mapGet, mapSet]
  | cons p t ih =>
    by_cases h : p.1 = k
    · simp [mapGet, mapSet, h]
    · simp [mapGet, mapSet, h, ih]

@[simp] theorem mapGet_mapSet_ne {α : Type} (m : List (String × α)) {k k' : String} (v : α)
    (h : k' ≠ k) : mapGet (mapSet m k v) k' = mapGet m k' := by
  induction m with
  | nil => simp [mapGet, mapSet, Ne.symm h]
  | cons p t ih =>
    by_cases hp : p.1 = k
    · simp [mapGet, mapSet, hp, Ne.symm h, h]
    · by_cases hp' : p.1 = k'
      · simp [mapGet, mapSet, hp, hp', h, Ne.symm h]
      · simp [mapGet, mapSet, hp, hp', ih]

@[simp] theorem mapGet_mapDelete_self {α : Type} (m : List (String × α)) (k : String) :
    mapGet (mapDelete m k) k = none := by
  induction m with
  | nil => simp [mapGet, mapDelete]
  | cons p t ih =>
    by_cases h : p.1 = k
    · simp [mapDelete, h, ih]
    · simp [mapGet, mapDelete, h, ih]

@[simp] theorem mapGet_mapDelete_ne {α : Type} (m : List (String × α)) {k k' : String}
    (h : k' ≠ k) : mapGet (mapDelete m k) k' = mapGet m k' := by
  induction m with
  | nil => simp [mapDelete]
  | cons p t ih =>
    by_cases hp : p.1 = k
    · simp [mapGet, mapDelete, hp, Ne.symm h, h, ih]
    · by_cases hp' : p.1 = k'
      · simp [mapGet, mapDelete, hp, hp', h, Ne.symm h, ih]
      · simp [mapGet, mapDelete, hp, hp', ih]

@[simp] theorem mem_wsSet (ws : List String) (k n : String) :
    n ∈ wsSet ws k ↔ n ∈ ws ∨ n = k := by
  unfold wsSet
  by_cases h : k ∈ ws
  · simp only [if_pos h]
    constructor
    · exact fun hn => Or.inl hn
    · rintro (hn | rfl)
      · exact hn
      · exact h
  · simp [if_neg h]

@[simp] theorem mem_wsDelete (ws : List String) (k n : String) :
    n ∈ wsDelete ws k ↔ n ∈ ws ∧ n ≠ k := by
  simp [wsDelete]

theorem nodup_wsSet (ws : List String) (k : String) (h : ws.Nodup) :
    (wsSet ws k).Nodup := by
  unfold wsSet
  by_cases hk : k ∈ ws
  · simpa [if_pos hk]
  · rw [if_neg hk]
    simp [List.nodup_append, h, hk]

theorem nodup_wsDelete (ws : List String) (k : String) (h : ws.Nodup) :
    (wsDelete ws k).Nodup :=
  h.filter _

/-! ### Round-trip contracts of the concrete host primitives -/

theorem unaryDecodeAux_replicate (n : Nat) (rest : List Char) (k : Nat) :
    unaryDecodeAux (List.replicate n 'a' ++ rest) k = unaryDecodeAux rest (k + n) := by
  induction n generalizing k with
  | zero => simp
  | succ m ih =>
    have hstep : unaryDecodeAux (List.replicate (m + 1) 'a' ++ rest) k
        = unaryDecodeAux (List.replicate m 'a' ++ rest) (k + 1) := by
      simp [List.replicate_succ, unaryDecodeAux]
    rw [hstep, ih]
    congr 1
    omega

theorem unaryDecodeAux_encode (l : List Nat) :
    unaryDecodeAux (l.flatMap fun n => List.replicate n 'a' ++ ['b']) 0 = some l := by
  induction l with
  | nil => simp [unaryDecodeAux]
  | cons n t ih =>
    simp only [List.flatMap_cons, List.append_assoc, List.singleton_append]
    rw [unaryDecodeAux_replicate]
    simp [unaryDecodeAux, ih]

theorem unaryDecode_unaryEncode (l : List Nat) : unaryDecode (unaryEncode l) = some l := by
  simpa [unaryDecode, unaryEncode] using unaryDecodeAux_encode l

theorem unaryEncode_ne_empty (l : List Nat) (h : l ≠ []) : unaryEncode l ≠ "" := by
  cases l with
  | nil => exact absurd rfl h
  | cons n t =>
    intro hcontra
    have hnil : ((n :: t).flatMap fun m => List.replicate m 'a' ++ ['b']) = [] := by
      have hdata := congrArg String.data hcontra
      simp only [unaryEncode] at hdata
      exact hdata
    simp at hnil

theorem witness_utf8_roundtrip (s : String) :
    witnessPrims.utf8decode (witnessPrims.utf8encode s) = s := by
  show String.mk ((s.data.map Char.toNat).map Char.ofNat) = s
  rw [List.map_map]
  have : (Char.ofNat ∘ Char.toNat) = id := by
    funext c
    exact Char.ofNat_toNat c
  rw [this, List.map_id]

/-! ## Claim theorems: TransportClient -/

/-- C3.  For every reconnect attempt number `n` with `1 ≤ n ≤ 10`, the delay
scheduled before retrying lies in the interval
`[1000·2^n, 1000·2^n + 1000]` milliseconds, capped at 30000 milliseconds; and
on attempt 11 no reconnect is scheduled and the client settles into
`Disconnected`. -/
theorem reconnect_backoff (st : WSState) (j : ℚ) (hj0 : 0 ≤ j) (hj1 : j < 1000)
    (hs : st.state ≠ ConnectionState.reconnecting) :
    (∀ n : Nat, st.reconnectAttempts + 1 = n → 1 ≤ n → n ≤ 10 →
      ∃ d : ℚ, (reconnect st j).reconnectTimeout = some d ∧
        min (1000 * 2 ^ n) 30000 ≤ d ∧ d ≤ min (1000 * 2 ^ n + 1000) 30000) ∧
    (st.reconnectAttempts = 10 →
      (reconnect st j).reconnectTimeout = none ∧
      (reconnect st j).state = ConnectionState.disconnected) := by
  constructor
  · intro n hn h1 h10
    have hle : ¬ n > maxReconnectAttempts := by
      simp only [maxReconnectAttempts]
      omega
    refine ⟨min (1000 * 2 ^ n + j) 30000, ?_, ?_, ?_⟩
    · simp only [reconnect, if_neg hs, clearTimers, hn, if_neg hle]
    · exact min_le_min (by linarith) le_rfl
    · exact min_le_min (by linarith) le_rfl
  · intro h10
    have hgt : st.reconnectAttempts + 1 > maxReconnectAttempts := by
      simp only [maxReconnectAttempts]
      omega
    constructor
    · simp only [reconnect, if_neg hs, clearTimers, if_pos hgt]
    · simp only [reconnect, if_neg hs, clearTimers, if_pos hgt]

/-- Witness for C3, at a freshly disconnected client making its first
attempt with jitter 500. -/
theorem reconnect_backoff_witness :
    ∃ d : ℚ,
      (reconnect ⟨ConnectionState.disconnected, some "T1", 0, none, false, false⟩
          500).reconnectTimeout = some d ∧
      min (1000 * 2 ^ 1) 30000 ≤ d ∧ d ≤ min (1000 * 2 ^ 1 + 1000) 30000 :=
  (reconnect_backoff ⟨ConnectionState.disconnected, some "T1", 0, none, false, false⟩
      500 (by norm_num) (by norm_num) (by decide)).1 1 rfl (by norm_num) (by norm_num)

/-- C4.  After a socket close with code 1000 (normal closure) or 4000 (auth
error), no reconnect is ever scheduled; after a close with any other code a
reconnect attempt is scheduled according to the backoff policy. -/
theorem handleClose_reconnect_policy (st : WSState) (code : Nat) (j : ℚ) :
    ((code = 1000 ∨ code = 4000) →
      handleClose st code j = { clearTimers st with state := ConnectionState.disconnected } ∧
      (handleClose st code j).reconnectTimeout = none ∧
      (handleClose st code j).reconnectAttempts = st.reconnectAttempts) ∧
    (code ≠ 1000 → code ≠ 4000 →
      handleClose st code j =
        reconnect { clearTimers st with state := ConnectionState.disconnected } j ∧
      (st.reconnectAttempts + 1 ≤ 10 →
        (handleClose st code j).reconnectTimeout =
          some (min (1000 * 2 ^ (st.reconnectAttempts + 1) + j) 30000))) := by
  constructor
  · intro h
    have hc : code = WebSocketCloseCode.normalClosure ∨ code = WebSocketCloseCode.authError := h
    refine ⟨?_, ?_, ?_⟩ <;> simp [handleClose, hc, clearTimers]
  · intro h1 h4
    have hc : ¬(code = WebSocketCloseCode.normalClosure ∨ code = WebSocketCloseCode.authError) := by
      simp only [WebSocketCloseCode.normalClosure, WebSocketCloseCode.authError]
      tauto
    constructor
    · simp [handleClose, hc]
    · intro hle
      have hgt : ¬ st.reconnectAttempts + 1 > maxReconnectAttempts := by
        simp only [maxReconnectAttempts]
        omega
      simp [handleClose, hc, reconnect, clearTimers, hgt]

/-- Witness for C4: close code 4000 schedules nothing, close code 1011
schedules the backoff delay. -/
theorem handleClose_reconnect_policy_witness :
    (handleClose ⟨ConnectionState.authenticated, some "T1", 0, none, true, true⟩
        4000 250).reconnectTimeout = none ∧
    (handleClose ⟨ConnectionState.authenticated, some "T1", 0, none, true, true⟩
        1011 250).reconnectTimeout = some (min (1000 * 2 ^ (0 + 1) + 250) 30000) :=
  ⟨((handleClose_reconnect_policy ⟨ConnectionState.authenticated, some "T1", 0, none,
        true, true⟩ 4000 250).1 (Or.inr rfl)).2.1,
   ((handleClose_reconnect_policy ⟨ConnectionState.authenticated, some "T1", 0, none,
        true, true⟩ 1011 250).2 (by decide) (by decide)).2 (by decide)⟩

/-- C6.  `connect()` returns failure without raising, without opening a
socket, and without changing the token, whenever the client is already
`Connected`, `Connecting` or `Authenticating`, or when no token is set. -/
theorem connect_rejected (st : WSState)
    (h : st.state = ConnectionState.connected ∨ st.state = ConnectionState.connecting ∨
         st.state = ConnectionState.authenticating ∨ st.authToken = none) :
    connect st = (st, false) ∧
    (connect st).1.authToken = st.authToken ∧
    (connect st).1.socketOpen = st.socketOpen := by
  have hmain : connect st = (st, false) := by
    rcases h with h | h | h | h
    · simp [connect, h]
    · simp [connect, h]
    · simp [connect, h]
    · by_cases hst : st.state = ConnectionState.connected ∨
          st.state = ConnectionState.connecting ∨ st.state = ConnectionState.authenticating
      · simp [connect, hst]
      · simp [connect, hst, h]
  exact ⟨hmain, by rw [hmain], by rw [hmain]⟩

/-- Witness for C6, at an authenticating client and at a disconnected client
with no token. -/
theorem connect_rejected_witness :
    connect ⟨ConnectionState.authenticating, some "T1", 0, none, false, true⟩ =
      (⟨ConnectionState.authenticating, some "T1", 0, none, false, true⟩, false) ∧
    connect ⟨ConnectionState.disconnected, none, 0, none, false, false⟩ =
      (⟨ConnectionState.disconnected, none, 0, none, false, false⟩, false) :=
  ⟨(connect_rejected ⟨ConnectionState.authenticating, some "T1", 0, none, false, true⟩
      (Or.inr (Or.inr (Or.inl rfl)))).1,
   (connect_rejected ⟨ConnectionState.disconnected, none, 0, none, false, false⟩
      (Or.inr (Or.inr (Or.inr rfl)))).1⟩

/-- C10.  Invoking `reconnect` while already `Reconnecting` is a no-op: the
attempt counter is not incremented and no additional reconnect timer is
scheduled. -/
theorem reconnect_noop_while_reconnecting (st : WSState) (j : ℚ)
    (h : st.state = ConnectionState.reconnecting) :
    reconnect st j = st ∧
    (reconnect st j).reconnectAttempts = st.reconnectAttempts ∧
    (reconnect st j).reconnectTimeout = st.reconnectTimeout := by
  have hmain : reconnect st j = st := by simp [reconnect, h]
  exact ⟨hmain, by rw [hmain], by rw [hmain]⟩

/-- Witness for C10, at a reconnecting client with a pending timer. -/
theorem reconnect_noop_while_reconnecting_witness :
    reconnect ⟨ConnectionState.reconnecting, some "T1", 3, some 4000, false, true⟩ 700 =
      ⟨ConnectionState.reconnecting, some "T1", 3, some 4000, false, true⟩ :=
  (reconnect_noop_while_reconnecting
    ⟨ConnectionState.reconnecting, some "T1", 3, some 4000, false, true⟩ 700 rfl).1

/-! ## Supporting lemmas: WorkerSupervisor folds -/

@[simp] theorem applyTerms_nil (st : MState) : applyTerms st [] = st := rfl

@[simp] theorem applyTerms_cons (st : MState) (n : String) (l : List String) :
    applyTerms st (n :: l) = applyTerms (terminateWorker st n).1 l := rfl

@[simp] theorem applyInits_nil (st : MState) : applyInits st [] = st := rfl

@[simp] theorem applyInits_cons (st : MState) (c : BotConfig) (cs : List BotConfig) :
    applyInits st (c :: cs) = applyInits (initWorker st c).1 cs := rfl

theorem terminateWorker_other (st : MState) {k n : String} (h : n ≠ k) :
    mapGet (terminateWorker st k).1.status n = mapGet st.status n ∧
    mapGet (terminateWorker st k).1.errorCounts n = mapGet st.errorCounts n ∧
    ((n ∈ (terminateWorker st k).1.workers) ↔ n ∈ st.workers) := by
  by_cases hk : k ∈ st.workers
  · simp [terminateWorker, hk, h]
  · simp [terminateWorker, hk]

theorem terminateWorker_self (st : MState) {n : String} (h : n ∈ st.workers) :
    mapGet (terminateWorker st n).1.status n = some WorkerStatus.terminated ∧
    n ∉ (terminateWorker st n).1.workers := by
  simp [terminateWorker, h]

theorem applyTerms_pres (l : List String) {n : String} :
    ∀ st : MState, n ∉ st.workers →
      mapGet st.status n = some WorkerStatus.terminated →
      mapGet (applyTerms st l).status n = some WorkerStatus.terminated ∧
      n ∉ (applyTerms st l).workers := by
  induction l with
  | nil => exact fun st hmem hstat => ⟨hstat, hmem⟩
  | cons k l' ih =>
    intro st hmem hstat
    rw [applyTerms_cons]
    by_cases hk : n = k
    · subst hk
      have hid : (terminateWorker st n).1 = st := by simp [terminateWorker, hmem]
      rw [hid]
      exact ih st hmem hstat
    · have h3 := terminateWorker_other st (k := k) hk
      exact ih _ (fun hc => hmem (h3.2.2.mp hc)) (h3.1.trans hstat)

theorem applyTerms_term (l : List String) {n : String} :
    ∀ st : MState, n ∈ st.workers → n ∈ l →
      mapGet (applyTerms st l).status n = some WorkerStatus.terminated ∧
      n ∉ (applyTerms st l).workers := by
  induction l with
  | nil => intro st _ hl; cases hl
  | cons k l' ih =>
    intro st hw hl
    rw [applyTerms_cons]
    by_cases hk : n = k
    · subst hk
      have hs := terminateWorker_self st hw
      exact applyTerms_pres l' _ hs.2 hs.1
    · have h3 := terminateWorker_other st (k := k) hk
      have hl' : n ∈ l' := by
        cases hl with
        | head => exact absurd rfl hk
        | tail _ hmem => exact hmem
      exact ih _ (h3.2.2.mpr hw) hl'

theorem applyTerms_workers_nil (l : List String) :
    ∀ st : MState, (∀ n, n ∈ st.workers → n ∈ l) → (applyTerms st l).workers = [] := by
  induction l with
  | nil =>
    intro st h
    exact List.eq_nil_iff_forall_not_mem.mpr fun n hn => by simpa using h n hn
  | cons k l' ih =>
    intro st h
    rw [applyTerms_cons]
    apply ih
    intro n hn
    by_cases hk : k ∈ st.workers
    · have hn' : n ∈ st.workers ∧ n ≠ k := by
        simpa [terminateWorker, hk] using hn
      rcases List.mem_cons.mp (h n hn'.1) with heq | hm
      · exact absurd heq hn'.2
      · exact hm
    · have hn' : n ∈ st.workers := by
        simpa [terminateWorker, hk] using hn
      rcases List.mem_cons.mp (h n hn') with heq | hm
      · exact absurd (heq ▸ hn') hk
      · exact hm

theorem initWorker_establishes (st : MState) {c : BotConfig} (h : c.name ≠ "") :
    mapGet (initWorker st c).1.status c.name = some WorkerStatus.idle ∧
    c.name ∈ (initWorker st c).1.workers ∧
    mapGet (initWorker st c).1.errorCounts c.name = some 0 := by
  by_cases hw : c.name ∈ st.workers
  · simp [initWorker, createWorker, terminateWorker, h, hw]
  · simp [initWorker, createWorker, h, hw]

theorem initWorker_preserves (st : MState) {c : BotConfig} {n : String} (h : n ≠ c.name) :
    mapGet (initWorker st c).1.status n = mapGet st.status n ∧
    mapGet (initWorker st c).1.errorCounts n = mapGet st.errorCounts n ∧
    ((n ∈ (initWorker st c).1.workers) ↔ n ∈ st.workers) := by
  by_cases h0 : c.name = ""
  · simp [initWorker, h0]
  · by_cases hw : c.name ∈ st.workers
    · simp [initWorker, createWorker, terminateWorker, h0, hw, h]
    · simp [initWorker, createWorker, h0, hw, h]

theorem applyInits_preserves (configs : List BotConfig) {n : String} :
    ∀ st : MState, (∀ c ∈ configs, c.name ≠ n) →
      mapGet (applyInits st configs).status n = mapGet st.status n ∧
      mapGet (applyInits st configs).errorCounts n = mapGet st.errorCounts n ∧
      ((n ∈ (applyInits st configs).workers) ↔ n ∈ st.workers) := by
  induction configs with
  | nil => exact fun st _ => ⟨rfl, rfl, Iff.rfl⟩
  | cons c cs ih =>
    intro st h
    have hc : n ≠ c.name := fun he => h c (List.mem_cons_self c cs) he.symm
    have hstep := initWorker_preserves st (c := c) hc
    have hrest := ih (initWorker st c).1 fun d hd => h d (List.mem_cons_of_mem c hd)
    rw [applyInits_cons]
    exact ⟨hrest.1.trans hstep.1, hrest.2.1.trans hstep.2.1, hrest.2.2.trans hstep.2.2⟩

theorem applyInits_mem (configs : List BotConfig) {n : String} (hne : n ≠ "") :
    ∀ st : MState, n ∈ configs.map BotConfig.name →
      mapGet (applyInits st configs).status n = some WorkerStatus.idle ∧
      n ∈ (applyInits st configs).workers ∧
      mapGet (applyInits st configs).errorCounts n = some 0 := by
  induction configs with
  | nil => intro st h; simp at h
  | cons c cs ih =>
    intro st h
    by_cases hcs : n ∈ cs.map BotConfig.name
    · rw [applyInits_cons]
      exact ih _ hcs
    · have hc : c.name = n := by
        have hor : n = c.name ∨ n ∈ cs.map BotConfig.name := by simpa using h
        rcases hor with h1 | h1
        · exact h1.symm
        · exact absurd h1 hcs
      have hest := initWorker_establishes st (c := c) (by rw [hc]; exact hne)
      rw [hc] at hest
      have hpres := applyInits_preserves cs (n := n) (initWorker st c).1
        (fun d hd he => hcs (he ▸ List.mem_map_of_mem BotConfig.name hd))
      rw [applyInits_cons]
      exact ⟨hpres.1.trans hest.1, hpres.2.2.mpr hest.2.1, hpres.2.1.trans hest.2.2⟩

theorem initWorker_workers_subset (st : MState) (c : BotConfig) {n : String}
    (h : n ∈ (initWorker st c).1.workers) :
    n ∈ st.workers ∨ (n = c.name ∧ c.name ≠ "") := by
  by_cases h0 : c.name = ""
  · left
    simpa [initWorker, h0] using h
  · by_cases hw : c.name ∈ st.workers
    · have hor : (n ∈ st.workers ∧ n ≠ c.name) ∨ n = c.name := by
        simpa [initWorker, createWorker, terminateWorker, h0, hw] using h
      rcases hor with ⟨h1, _⟩ | h1
      · exact Or.inl h1
      · exact Or.inr ⟨h1, h0⟩
    · have hor : n ∈ st.workers ∨ n = c.name := by
        simpa [initWorker, createWorker, h0, hw] using h
      rcases hor with h1 | h1
      · exact Or.inl h1
      · exact Or.inr ⟨h1, h0⟩

theorem applyInits_workers_subset (configs : List BotConfig) {n : String} :
    ∀ st : MState, n ∈ (applyInits st configs).workers →
      n ∈ st.workers ∨ ∃ c ∈ configs, c.name = n ∧ n ≠ "" := by
  induction configs with
  | nil => exact fun st h => Or.inl h
  | cons c cs ih =>
    intro st h
    rw [applyInits_cons] at h
    rcases ih _ h with h1 | ⟨d, hd, hdn, hdne⟩
    · rcases initWorker_workers_subset st c h1 with h2 | ⟨h2, h3⟩
      · exact Or.inl h2
      · refine Or.inr ⟨c, List.mem_cons_self c cs, h2.symm, ?_⟩
        rw [h2]
        exact h3
    · exact Or.inr ⟨d, List.mem_cons_of_mem c hd, hdn, hdne⟩

theorem initWorker_nodup (st : MState) (c : BotConfig) (h : st.workers.Nodup) :
    (initWorker st c).1.workers.Nodup := by
  by_cases h0 : c.name = ""
  · simpa [initWorker, h0] using h
  · by_cases hw : c.name ∈ st.workers
    · have hshape : (initWorker st c).1.workers =
          wsSet (wsDelete st.workers c.name) c.name := by
        simp [initWorker, createWorker, terminateWorker, h0, hw]
      rw [hshape]
      exact nodup_wsSet _ _ (nodup_wsDelete _ _ h)
    · have hshape : (initWorker st c).1.workers = wsSet st.workers c.name := by
        simp [initWorker, createWorker, h0, hw]
      rw [hshape]
      exact nodup_wsSet _ _ h

theorem applyInits_nodup (configs : List BotConfig) :
    ∀ st : MState, st.workers.Nodup → (applyInits st configs).workers.Nodup := by
  induction configs with
  | nil => exact fun st h => h
  | cons c cs ih =>
    intro st h
    rw [applyInits_cons]
    exact ih _ (initWorker_nodup st c h)

theorem attemptWorkerRecovery_fst (st : MState) (name : String) :
    (attemptWorkerRecovery st name).1 = st := by
  by_cases h1 : name ∉ st.workers
  · simp [attemptWorkerRecovery, h1]
  · by_cases h2 : (mapGet st.errorCounts name).getD 0 ≤ maxRetries <;>
      simp [attemptWorkerRecovery, h1, h2]

/-! ## Claim theorems: WorkerSupervisor -/

/-- C1.  After exactly `maxRetries + 1` (= 4) consecutive runtime errors with
no intervening `Result` message, no further recovery is scheduled and the
unit's record stays `Error`; a `Result` message at any point resets the
consecutive-error counter to 0. -/
theorem worker_retry_budget (st : MState) (name : String)
    (hmem : name ∈ st.workers)
    (h0 : mapGet st.errorCounts name = some 0) :
    mapGet (afterFourErrors st name).1.errorCounts name = some 4 ∧
    mapGet (afterFourErrors st name).1.status name = some WorkerStatus.error ∧
    (afterFourErrors st name).2 = [] ∧
    attemptWorkerRecovery (afterFourErrors st name).1 name =
      ((afterFourErrors st name).1, []) ∧
    (handleWorkerError st name).2 = [MEffect.scheduleRecovery name restartTimeout] ∧
    (∀ (st' : MState) (d : String),
      mapGet (handleWorkerMessage st' name WorkerMsgType.result d).1.errorCounts name =
        some 0) := by
  refine ⟨?_, ?_, ?_, ?_, ?_, ?_⟩ <;>
    simp [afterFourErrors, errThenRecover, handleWorkerError, attemptWorkerRecovery,
      recoveryFire, startWorker, handleWorkerMessage, maxRetries, restartTimeout,
      hmem, h0]

/-- Witness for C1, on a single running worker with a clean error count. -/
theorem worker_retry_budget_witness :
    mapGet (afterFourErrors ⟨["w"], [("w", WorkerStatus.running)], [("w", 0)]⟩
        "w").1.errorCounts "w" = some 4 ∧
    mapGet (afterFourErrors ⟨["w"], [("w", WorkerStatus.running)], [("w", 0)]⟩
        "w").1.status "w" = some WorkerStatus.error ∧
    (afterFourErrors ⟨["w"], [("w", WorkerStatus.running)], [("w", 0)]⟩ "w").2 = [] ∧
    attemptWorkerRecovery
        (afterFourErrors ⟨["w"], [("w", WorkerStatus.running)], [("w", 0)]⟩ "w").1 "w" =
      ((afterFourErrors ⟨["w"], [("w", WorkerStatus.running)], [("w", 0)]⟩ "w").1, []) ∧
    (handleWorkerError ⟨["w"], [("w", WorkerStatus.running)], [("w", 0)]⟩ "w").2 =
      [MEffect.scheduleRecovery "w" restartTimeout] ∧
    (∀ (st' : MState) (d : String),
      mapGet (handleWorkerMessage st' "w" WorkerMsgType.result d).1.errorCounts "w" =
        some 0) :=
  worker_retry_budget ⟨["w"], [("w", WorkerStatus.running)], [("w", 0)]⟩ "w"
    (by decide) (by decide)

/-- C5.  `initWorkers` first terminates every tracked unit, then creates
exactly one fresh `Idle` record per named config entry (keyed by name, last
entry wins); an entry missing a name is rejected without side effects. -/
theorem initWorkers_spec (st : MState) (configs : List BotConfig) :
    (∀ c ∈ configs, c.name ≠ "" →
      mapGet (initWorkers st configs).status c.name = some WorkerStatus.idle ∧
      c.name ∈ (initWorkers st configs).workers ∧
      mapGet (initWorkers st configs).errorCounts c.name = some 0) ∧
    (∀ n, n ∈ (initWorkers st configs).workers →
      ∃ c ∈ configs, c.name = n ∧ n ≠ "") ∧
    (initWorkers st configs).workers.Nodup ∧
    (∀ c : BotConfig, c.name = "" → ∀ s : MState, initWorker s c = (s, false)) ∧
    (∀ n ∈ st.workers, (∀ c ∈ configs, c.name ≠ n) →
      mapGet (initWorkers st configs).status n = some WorkerStatus.terminated ∧
      n ∉ (initWorkers st configs).workers) := by
  have htermW : (terminateAllWorkers st).workers = [] :=
    applyTerms_workers_nil st.workers st (fun n hn => hn)
  refine ⟨?_, ?_, ?_, ?_, ?_⟩
  · intro c hc hne
    exact applyInits_mem configs hne _ (List.mem_map_of_mem BotConfig.name hc)
  · intro n hn
    rcases applyInits_workers_subset configs _ hn with h1 | h2
    · rw [htermW] at h1
      cases h1
    · exact h2
  · exact applyInits_nodup configs _ (by rw [htermW]; exact List.nodup_nil)
  · intro c hc s
    simp [initWorker, hc]
  · intro n hn hnc
    have hterm := applyTerms_term st.workers st hn hn
    have hpres := applyInits_preserves configs (n := n) (terminateAllWorkers st)
      hnc
    exact ⟨hpres.1.trans hterm.1, fun hcontra => hterm.2 (hpres.2.2.mp hcontra)⟩

/-- Witness for C5: one prior worker, one named config, one nameless config. -/
theorem initWorkers_spec_witness :
    (mapGet (initWorkers ⟨["old"], [("old", WorkerStatus.running)], [("old", 2)]⟩
        [⟨"a", "i", "p"⟩, ⟨"", "x", "y"⟩]).status "a" = some WorkerStatus.idle ∧
      "a" ∈ (initWorkers ⟨["old"], [("old", WorkerStatus.running)], [("old", 2)]⟩
        [⟨"a", "i", "p"⟩, ⟨"", "x", "y"⟩]).workers ∧
      mapGet (initWorkers ⟨["old"], [("old", WorkerStatus.running)], [("old", 2)]⟩
        [⟨"a", "i", "p"⟩, ⟨"", "x", "y"⟩]).errorCounts "a" = some 0) ∧
    initWorker ⟨["old"], [("old", WorkerStatus.running)], [("old", 2)]⟩ ⟨"", "x", "y"⟩ =
      (⟨["old"], [("old", WorkerStatus.running)], [("old", 2)]⟩, false) ∧
    (mapGet (initWorkers ⟨["old"], [("old", WorkerStatus.running)], [("old", 2)]⟩
        [⟨"a", "i", "p"⟩, ⟨"", "x", "y"⟩]).status "old" = some WorkerStatus.terminated ∧
      "old" ∉ (initWorkers ⟨["old"], [("old", WorkerStatus.running)], [("old", 2)]⟩
        [⟨"a", "i", "p"⟩, ⟨"", "x", "y"⟩]).workers) :=
  ⟨(initWorkers_spec ⟨["old"], [("old", WorkerStatus.running)], [("old", 2)]⟩
      [⟨"a", "i", "p"⟩, ⟨"", "x", "y"⟩]).1 ⟨"a", "i", "p"⟩ (by decide) (by decide),
   (initWorkers_spec ⟨["old"], [("old", WorkerStatus.running)], [("old", 2)]⟩
      [⟨"a", "i", "p"⟩, ⟨"", "x", "y"⟩]).2.2.2.1 ⟨"", "x", "y"⟩ rfl
      ⟨["old"], [("old", WorkerStatus.running)], [("old", 2)]⟩,
   (initWorkers_spec ⟨["old"], [("old", WorkerStatus.running)], [("old", 2)]⟩
      [⟨"a", "i", "p"⟩, ⟨"", "x", "y"⟩]).2.2.2.2 "old" (by decide) (by decide)⟩

/-- C7.  `startWorker(name)` returns failure and changes no supervisor state
whenever the record is `Running` or `Terminated`, or does not exist. -/
theorem startWorker_invalid_state (st : MState) (name : String)
    (h : mapGet st.status name = some WorkerStatus.running ∨
         mapGet st.status name = some WorkerStatus.terminated ∨
         name ∉ st.workers) :
    startWorker st name = (st, false, []) := by
  rcases h with h | h | h
  · simp [startWorker, h]
  · simp [startWorker, h]
  · simp [startWorker, h]

/-- Witness for C7: a running record, a terminated record, and a missing
record are each rejected unchanged. -/
theorem startWorker_invalid_state_witness :
    startWorker ⟨["w"], [("w", WorkerStatus.running)], [("w", 0)]⟩ "w" =
      (⟨["w"], [("w", WorkerStatus.running)], [("w", 0)]⟩, false, []) ∧
    startWorker ⟨[], [("w", WorkerStatus.terminated)], []⟩ "w" =
      (⟨[], [("w", WorkerStatus.terminated)], []⟩, false, []) ∧
    startWorker ⟨["w"], [("w", WorkerStatus.idle)], []⟩ "ghost" =
      (⟨["w"], [("w", WorkerStatus.idle)], []⟩, false, []) :=
  ⟨startWorker_invalid_state ⟨["w"], [("w", WorkerStatus.running)], [("w", 0)]⟩ "w"
      (Or.inl (by decide)),
   startWorker_invalid_state ⟨[], [("w", WorkerStatus.terminated)], []⟩ "w"
      (Or.inr (Or.inl (by decide))),
   startWorker_invalid_state ⟨["w"], [("w", WorkerStatus.idle)], []⟩ "ghost"
      (Or.inr (Or.inr (by decide)))⟩

/-- C9.  An `Error` control message from a unit that is not `Running` leaves
status and counter unchanged and schedules no recovery; only while `Running`
does it set `Error`, increment the counter, and trigger recovery. -/
theorem error_message_only_when_running (st : MState) (name : String) (d : String) :
    (mapGet st.status name ≠ some WorkerStatus.running →
      handleWorkerMessage st name WorkerMsgType.error d = (st, [])) ∧
    (mapGet st.status name = some WorkerStatus.running →
      handleWorkerMessage st name WorkerMsgType.error d =
        attemptWorkerRecovery
          { st with status := mapSet st.status name WorkerStatus.error,
                    errorCounts := mapSet st.errorCounts name
                      ((mapGet st.errorCounts name).getD 0 + 1) } name ∧
      mapGet (handleWorkerMessage st name WorkerMsgType.error d).1.status name =
        some WorkerStatus.error ∧
      mapGet (handleWorkerMessage st name WorkerMsgType.error d).1.errorCounts name =
        some ((mapGet st.errorCounts name).getD 0 + 1)) := by
  constructor
  · intro h
    simp [handleWorkerMessage, h]
  · intro h
    have heq : handleWorkerMessage st name WorkerMsgType.error d =
        attemptWorkerRecovery
          { st with status := mapSet st.status name WorkerStatus.error,
                    errorCounts := mapSet st.errorCounts name
                      ((mapGet st.errorCounts name).getD 0 + 1) } name := by
      simp [handleWorkerMessage, h]
    refine ⟨heq, ?_, ?_⟩
    · rw [heq]
      conv_lhs => rw [show (attemptWorkerRecovery
          { st with status := mapSet st.status name WorkerStatus.error,
                    errorCounts := mapSet st.errorCounts name
                      ((mapGet st.errorCounts name).getD 0 + 1) } name).1 =
          { st with status := mapSet st.status name WorkerStatus.error,
                    errorCounts := mapSet st.errorCounts name
                      ((mapGet st.errorCounts name).getD 0 + 1) } from
        attemptWorkerRecovery_fst _ _]
      simp
    · rw [heq]
      conv_lhs => rw [show (attemptWorkerRecovery
          { st with status := mapSet st.status name WorkerStatus.error,
                    errorCounts := mapSet st.errorCounts name
                      ((mapGet st.errorCounts name).getD 0 + 1) } name).1 =
          { st with status := mapSet st.status name WorkerStatus.error,
                    errorCounts := mapSet st.errorCounts name
                      ((mapGet st.errorCounts name).getD 0 + 1) } from
        attemptWorkerRecovery_fst _ _]
      simp

/-- Witness for C9: an idle unit ignores the error message, a running unit
records it. -/
theorem error_message_only_when_running_witness :
    handleWorkerMessage ⟨["w"], [("w", WorkerStatus.idle)], [("w", 0)]⟩ "w"
        WorkerMsgType.error "boom" =
      (⟨["w"], [("w", WorkerStatus.idle)], [("w", 0)]⟩, []) ∧
    mapGet (handleWorkerMessage ⟨["w"], [("w", WorkerStatus.running)], [("w", 1)]⟩ "w"
        WorkerMsgType.error "boom").1.errorCounts "w" = some 2 :=
  ⟨(error_message_only_when_running ⟨["w"], [("w", WorkerStatus.idle)], [("w", 0)]⟩
      "w" "boom").1 (by decide),
   ((error_message_only_when_running ⟨["w"], [("w", WorkerStatus.running)], [("w", 1)]⟩
      "w" "boom").2 (by decide)).2.2⟩

/-! ## Claim theorems: CryptoEngine -/

/-- C2.  With both the sealing public key and the opening private key
available, `open(seal(m)) == m` for every plaintext string `m`: sealing
produces the base64 `{k, i, d}` JSON envelope under the fresh symmetric
key/IV, and opening it recovers exactly `m`.  The host primitives are
constrained only by their contracts: each decoder inverts its encoder, and
RSA/AES-CBC ciphertexts and the 128-bit IV are never empty byte strings. -/
theorem seal_open_roundtrip (p : CryptoPrims)
    (hb64 : ∀ bs, p.b64decode (p.b64encode bs) = some bs)
    (hb64ne : ∀ bs, bs ≠ [] → p.b64encode bs ≠ "")
    (hrsa : ∀ ks, p.rsaDecrypt (p.rsaEncrypt ks) = some ks)
    (hrsane : ∀ ks, p.rsaEncrypt ks ≠ [])
    (haes : ∀ key iv data, p.aesDecrypt key iv (p.aesEncrypt key iv data) = some data)
    (haesne : ∀ key iv data, p.aesEncrypt key iv data ≠ [])
    (hutf : ∀ s, p.utf8decode (p.utf8encode s) = s)
    (key iv : List Nat) (hiv : iv ≠ []) (m : String) :
    decryptHybrid p (envelopeToFrame (encryptMessage p key iv m)) = Except.ok m := by
  simp [decryptHybrid, envelopeToFrame, encryptMessage, encryptHybrid, strTruthy,
    hb64, hrsa, haes, hutf, hb64ne _ (hrsane key), hb64ne _ hiv,
    hb64ne _ (haesne key iv (p.utf8encode m))]

/-- Witness for C2, with the concrete executable host primitives, a sample
key/IV, and the message "hi". -/
theorem seal_open_roundtrip_witness :
    decryptHybrid witnessPrims
      (envelopeToFrame (encryptMessage witnessPrims [1, 2] [3] "hi")) =
      Except.ok "hi" :=
  seal_open_roundtrip witnessPrims (fun bs => unaryDecode_unaryEncode bs)
    unaryEncode_ne_empty (fun _ => rfl) (fun ks => List.cons_ne_nil 0 ks)
    (fun _ _ _ => rfl) (fun _ _ d => List.cons_ne_nil 0 d)
    witness_utf8_roundtrip [1, 2] [3] (List.cons_ne_nil 3 []) "hi"

/-- C8.  `open` on an envelope that parses as JSON but is missing any of
`k`, `i`, `d` fails with a format error and returns no plaintext. -/
theorem open_missing_field (p : CryptoPrims) (frame : ParsedFrame)
    (h : frame.k = none ∨ frame.i = none ∨ frame.d = none) :
    decryptHybrid p frame = Except.error CryptoError.invalidFormat := by
  rcases h with h | h | h <;> simp [decryptHybrid, strTruthy, h]

/-- Witness for C8, on a frame missing the `k` field. -/
theorem open_missing_field_witness :
    decryptHybrid witnessPrims ⟨none, some "b", some "ab"⟩ =
      Except.error CryptoError.invalidFormat :=
  open_missing_field witnessPrims ⟨none, some "b", some "ab"⟩ (Or.inl rfl)

end BlockAssassin



